import Mathlib

/-
Verification of the hexagonal snowflake-crystal automaton
(`hexagonal_grid.py`): a shallow embedding of the `Hexagon` cell entity,
the `CrystalLattice` container, the `diffusion` step and the
`all_ends_frozen` termination detector, together with theorems settling
the specification claims.

Modelling conventions:
* Python floats are modelled as rationals (`ℚ`); every arithmetic
  operation performed by the source is exact on the inputs it is run on.
* The dictionary `self.lattice` (keys created once, never added or
  removed) is modelled as a total value function `lattice : ℤ × ℤ → Hexagon`
  together with the key region `containsCoord size` / `lattice_coords size`;
  dictionary membership tests (`qr in self.lattice`) are `containsCoord`,
  and all mutation is restricted to coordinates inside the region.
* `np.mean` of an empty list is NaN in the source; NaN is not a rational,
  so `npMean` returns an `Option ℚ` with `none` for the empty list.
* `sys.exit()` and the `KeyError` raised by an off-lattice dictionary
  lookup do not return; `all_ends_frozen` therefore produces a
  `DetectorOutcome` with one constructor per non-returning exit path.
-/

namespace SnowCrystal

/-- Per-cell state entity, mirroring `Hexagon.__init__` field for field. -/
structure Hexagon where
  u : ℚ
  v : ℚ
  state : ℚ
  mean_u : ℚ
  receptive : Bool
deriving DecidableEq

attribute [ext] Hexagon

/-- The lattice object: `size`, the three parameters and the cell store of
`CrystalLattice.__init__`.  The dictionary is the value function `lattice`
restricted to the key region `containsCoord size`. -/
structure CrystalLattice where
  size : ℕ
  alpha : ℚ
  beta : ℚ
  gamma : ℚ
  lattice : (ℤ × ℤ) → Hexagon

attribute [ext] CrystalLattice

/-- Membership of a coordinate in the dictionary built by
`create_hexagonal_lattice`: the loops range `q, r` over `[-size, size]` and
skip pairs with `q + r > size` or `q + r < -size`. -/
def containsCoord (n : ℕ) (p : ℤ × ℤ) : Bool :=
  decide (-(n : ℤ) ≤ p.1 ∧ p.1 ≤ (n : ℤ) ∧ -(n : ℤ) ≤ p.2 ∧ p.2 ≤ (n : ℤ) ∧
    -(n : ℤ) ≤ p.1 + p.2 ∧ p.1 + p.2 ≤ (n : ℤ))

/-- The key set of the dictionary, as a finite set. -/
def lattice_coords (n : ℕ) : Finset (ℤ × ℤ) :=
  (Finset.Icc (-(n : ℤ)) (n : ℤ) ×ˢ Finset.Icc (-(n : ℤ)) (n : ℤ)).filter
    (fun p => -(n : ℤ) ≤ p.1 + p.2 ∧ p.1 + p.2 ≤ (n : ℤ))

/-- The constructor `CrystalLattice.__init__` + `create_hexagonal_lattice`:
the centre `(0, 0)` receives `Hexagon(0, 1, 1, 0, False)` and every other
key `(r, q)` receives `Hexagon(beta, 0, beta, 0, False)`.  (The value stored
depends only on whether the key is the centre, so the `(r, q)` key flip of
the source is invisible here; the key set itself is symmetric under the
flip.) -/
def create_hexagonal_lattice (n : ℕ) (alpha beta gamma : ℚ) : CrystalLattice where
  size := n
  alpha := alpha
  beta := beta
  gamma := gamma
  lattice := fun p => if p = ((0 : ℤ), (0 : ℤ)) then ⟨0, 1, 1, 0, false⟩ else ⟨beta, 0, beta, 0, false⟩

/-- The six axial offsets of `get_neighbours`, in source order. -/
def neighbourhood (p : ℤ × ℤ) : List (ℤ × ℤ) :=
  [(p.1, p.2 - 1), (p.1 + 1, p.2 - 1), (p.1 + 1, p.2),
   (p.1, p.2 + 1), (p.1 - 1, p.2 + 1), (p.1 - 1, p.2)]

/-- `get_neighbours`: the offsets filtered by dictionary membership.
It reads only the key set, hence only the lattice size. -/
def get_neighbours (n : ℕ) (p : ℤ × ℤ) : List (ℤ × ℤ) :=
  (neighbourhood p).filter (containsCoord n)

/-- `np.mean` on a list of floats: `none` models the NaN returned on an
empty list, otherwise the arithmetic mean. -/
def npMean (l : List ℚ) : Option ℚ :=
  if l.isEmpty then none else some (l.sum / (l.length : ℚ))

/-- `umean_neighbours`: `np.mean` of the `u` values of the filtered
neighbours. -/
def umean_neighbours (L : CrystalLattice) (p : ℤ × ℤ) : Option ℚ :=
  npMean ((get_neighbours L.size p).map fun q => (L.lattice q).u)

/-- `if_receptive`: the cell itself is frozen (`state >= 1`) or at least
one filtered neighbour is frozen. -/
def if_receptive (L : CrystalLattice) (p : ℤ × ℤ) : Bool :=
  decide (1 ≤ (L.lattice p).state) ||
    (get_neighbours L.size p).any fun q => decide (1 ≤ (L.lattice q).state)

/-- The six branch-end coordinates of `all_ends_frozen`, as written in the
source (a Python set literal: iteration deduplicates equal members). -/
def branch_tip_list (n : ℕ) : List (ℤ × ℤ) :=
  [(-((n : ℤ) - 1), (n : ℤ) - 1), ((n : ℤ) - 1, -((n : ℤ) - 1)),
   ((0 : ℤ), (n : ℤ) - 1), ((0 : ℤ), -((n : ℤ) - 1)),
   ((n : ℤ) - 1, (0 : ℤ)), (-((n : ℤ) - 1), (0 : ℤ))]

/-- The Python set built from the branch-tip literal; duplicates collapse. -/
def branch_tips (n : ℕ) : Finset (ℤ × ℤ) :=
  (branch_tip_list n).toFinset

/-- `frozen_ends`: how many members of the branch-tip set have `state >= 1`. -/
def frozen_ends (L : CrystalLattice) : ℕ :=
  ((branch_tips L.size).filter fun p => 1 ≤ (L.lattice p).state).card

/-- The running total `frozen` of `all_ends_frozen`: cells of the lattice
with `state >= 1`. -/
def frozen_count (L : CrystalLattice) : ℕ :=
  ((lattice_coords L.size).filter fun p => 1 ≤ (L.lattice p).state).card

/-- The stall comparison of `all_ends_frozen`: `frozen_list` is a local
variable initialised to `[0]` with the current count appended once, so
`frozen_list[-1]` is index 1 and `frozen_list[-2]` is index 0 of the
two-element list `[0, frozen]`. -/
def stall_check (L : CrystalLattice) : Bool :=
  decide (([0, frozen_count L].getD 1 0) = ([0, frozen_count L].getD 0 0))

/-- How a call of `all_ends_frozen` ends.  The source either raises
`KeyError` (a branch-tip key is absent from the dictionary), or prints,
saves a PNG and raises `SystemExit` via `sys.exit()`, or returns `False`. -/
inductive DetectorOutcome where
  | keyError
  | exitProcess
  | returns (b : Bool)
deriving DecidableEq

/-- `all_ends_frozen`: raises `KeyError` when some branch-tip coordinate is
not a dictionary key (this happens exactly on the size-0 lattice);
otherwise exits the process when `frozen_ends == 6` or the stall comparison
holds, and returns `False` otherwise.  It never returns `True`. -/
def all_ends_frozen (L : CrystalLattice) : DetectorOutcome :=
  if ∀ p ∈ branch_tips L.size, containsCoord L.size p = true then
    (if frozen_ends L = 6 ∨ stall_check L = true then .exitProcess else .returns false)
  else .keyError

/-- Phase 2 of `diffusion`, per cell: receptive cells get `u = 0`,
`v = state`, `receptive = True`; non-receptive cells get `u = state`,
`v = 0` (their `receptive` field is left untouched). -/
def phase2cell (L : CrystalLattice) (p : ℤ × ℤ) : Hexagon :=
  if if_receptive L p then
    { L.lattice p with u := 0, v := (L.lattice p).state, receptive := true }
  else
    { L.lattice p with u := (L.lattice p).state, v := 0 }

/-- Phase 3 of `diffusion`, per cell: relaxation of `u` toward `mean_u`,
`gamma` deposition for flagged cells, and the closing `state = u + v`. -/
def phase3cell (alpha gamma : ℚ) (c : Hexagon) : Hexagon :=
  let u' := c.u + alpha / 2 * (c.mean_u - c.u)
  let v' := if c.receptive then c.v + gamma else c.v
  { c with u := u', v := v', state := u' + v' }

/-- Phase 1 of `diffusion` over the whole dictionary: store the neighbour
mean of `u` into `mean_u` for every key.  `np.mean` of an empty neighbour
list is NaN; `getD 0` supplies a placeholder rational in that case, which
is only reachable on the size-0 lattice — and on that lattice `diffusion`
has already died with a `KeyError` inside `all_ends_frozen` before phase 1
runs (see `diffusion`). -/
def phase1 (L : CrystalLattice) : CrystalLattice :=
  { L with lattice := fun p =>
      if containsCoord L.size p then
        { L.lattice p with mean_u := (umean_neighbours L p).getD 0 }
      else L.lattice p }

/-- Phase 2 of `diffusion` over the whole dictionary. -/
def phase2 (L : CrystalLattice) : CrystalLattice :=
  { L with lattice := fun p =>
      if containsCoord L.size p then phase2cell L p else L.lattice p }

/-- Phase 3 of `diffusion` over the whole dictionary. -/
def phase3 (L : CrystalLattice) : CrystalLattice :=
  { L with lattice := fun p =>
      if containsCoord L.size p then phase3cell L.alpha L.gamma (L.lattice p) else L.lattice p }

/-- The three mutation passes of `diffusion`, in source order.  Phase 1
writes only `mean_u` and reads only `u`; phase 2 writes `u`, `v`,
`receptive` and reads only `state`; phase 3 reads and writes only the
cell's own fields — so the simultaneous description here agrees with the
sequential dictionary loops of the source (proved below against the
fold-based model). -/
def diffusion_phases (L : CrystalLattice) : CrystalLattice :=
  phase3 (phase2 (phase1 L))

/-- `diffusion`: first calls `all_ends_frozen`, which either raises
`KeyError`, exits the process (both modelled `none`), or returns `False`
so the three passes run.  The dead `return`-early branch for a `True`
result is kept for fidelity. -/
def diffusion (L : CrystalLattice) : Option CrystalLattice :=
  match all_ends_frozen L with
  | .keyError => none
  | .exitProcess => none
  | .returns true => some L
  | .returns false => some (diffusion_phases L)

/-- Iterating the three mutation passes of `diffusion` (driver loop of the
simulation, counting completed steps). -/
def stepN (L : CrystalLattice) : ℕ → CrystalLattice
  | 0 => L
  | k + 1 => diffusion_phases (stepN L k)

/-! Basic bookkeeping lemmas. -/

theorem mem_lattice_coords {n : ℕ} {p : ℤ × ℤ} :
    p ∈ lattice_coords n ↔ containsCoord n p = true := by
  simp only [lattice_coords, containsCoord, Finset.mem_filter, Finset.mem_product,
    Finset.mem_Icc, decide_eq_true_eq]
  tauto

@[simp] theorem phase1_size (L : CrystalLattice) : (phase1 L).size = L.size := rfl

@[simp] theorem phase2_size (L : CrystalLattice) : (phase2 L).size = L.size := rfl

@[simp] theorem phase3_size (L : CrystalLattice) : (phase3 L).size = L.size := rfl

@[simp] theorem phase1_alpha (L : CrystalLattice) : (phase1 L).alpha = L.alpha := rfl

@[simp] theorem phase2_alpha (L : CrystalLattice) : (phase2 L).alpha = L.alpha := rfl

@[simp] theorem phase1_gamma (L : CrystalLattice) : (phase1 L).gamma = L.gamma := rfl

@[simp] theorem phase2_gamma (L : CrystalLattice) : (phase2 L).gamma = L.gamma := rfl

@[simp] theorem diffusion_phases_size (L : CrystalLattice) :
    (diffusion_phases L).size = L.size := rfl

@[simp] theorem diffusion_phases_alpha (L : CrystalLattice) :
    (diffusion_phases L).alpha = L.alpha := rfl

@[simp] theorem diffusion_phases_beta (L : CrystalLattice) :
    (diffusion_phases L).beta = L.beta := rfl

@[simp] theorem diffusion_phases_gamma (L : CrystalLattice) :
    (diffusion_phases L).gamma = L.gamma := rfl

@[simp] theorem stepN_size (L : CrystalLattice) (k : ℕ) : (stepN L k).size = L.size := by
  induction k with
  | zero => rfl
  | succ k ih => simp [stepN, ih]

@[simp] theorem stepN_alpha (L : CrystalLattice) (k : ℕ) : (stepN L k).alpha = L.alpha := by
  induction k with
  | zero => rfl
  | succ k ih => simp [stepN, ih]

@[simp] theorem stepN_gamma (L : CrystalLattice) (k : ℕ) : (stepN L k).gamma = L.gamma := by
  induction k with
  | zero => rfl
  | succ k ih => simp [stepN, ih]

theorem phase1_state (L : CrystalLattice) (q : ℤ × ℤ) :
    ((phase1 L).lattice q).state = (L.lattice q).state := by
  simp only [phase1]
  split <;> rfl

theorem phase1_u (L : CrystalLattice) (q : ℤ × ℤ) :
    ((phase1 L).lattice q).u = (L.lattice q).u := by
  simp only [phase1]
  split <;> rfl

theorem phase1_receptive (L : CrystalLattice) (q : ℤ × ℤ) :
    ((phase1 L).lattice q).receptive = (L.lattice q).receptive := by
  simp only [phase1]
  split <;> rfl

/-- `umean_neighbours` reads only the lattice size and the `u` fields. -/
theorem umean_congr (M L : CrystalLattice) (hs : M.size = L.size)
    (hu : ∀ q, (M.lattice q).u = (L.lattice q).u) (p : ℤ × ℤ) :
    umean_neighbours M p = umean_neighbours L p := by
  simp only [umean_neighbours, hs]
  congr 1
  exact List.map_congr_left fun a _ => hu a

/-- `if_receptive` reads only the lattice size and the `state` fields. -/
theorem if_receptive_congr (M L : CrystalLattice) (hs : M.size = L.size)
    (hst : ∀ q, (M.lattice q).state = (L.lattice q).state) (p : ℤ × ℤ) :
    if_receptive M p = if_receptive L p := by
  simp only [if_receptive, hs, hst]

theorem if_receptive_phase1 (L : CrystalLattice) (p : ℤ × ℤ) :
    if_receptive (phase1 L) p = if_receptive L p :=
  if_receptive_congr (phase1 L) L rfl (phase1_state L) p

theorem phase1_lattice_of_mem (L : CrystalLattice) {p : ℤ × ℤ}
    (hp : containsCoord L.size p = true) :
    (phase1 L).lattice p = { L.lattice p with mean_u := (umean_neighbours L p).getD 0 } := by
  simp only [phase1, hp, if_true]

theorem phase2_lattice_of_mem (L : CrystalLattice) {p : ℤ × ℤ}
    (hp : containsCoord L.size p = true) :
    (phase2 L).lattice p = phase2cell L p := by
  simp only [phase2, hp, if_true]

theorem phase3_lattice_of_mem (L : CrystalLattice) {p : ℤ × ℤ}
    (hp : containsCoord L.size p = true) :
    (phase3 L).lattice p = phase3cell L.alpha L.gamma (L.lattice p) := by
  simp only [phase3, hp, if_true]

/-- What one full `diffusion` pass does to a dictionary cell, written as a
single per-cell computation: classify from the pre-step states, register
`mean_u` from the pre-step `u` values, redistribute, relax, deposit for
flagged cells and close with `state = u + v`. -/
theorem diffusion_phases_cell (L : CrystalLattice) {p : ℤ × ℤ}
    (hp : containsCoord L.size p = true) :
    (diffusion_phases L).lattice p =
      (let c := L.lattice p
       let m : ℚ := (umean_neighbours L p).getD 0
       let r : Bool := if_receptive L p
       let u2 : ℚ := if r then 0 else c.state
       let v2 : ℚ := if r then c.state else 0
       let fl : Bool := r || c.receptive
       let u3 : ℚ := u2 + L.alpha / 2 * (m - u2)
       let v3 : ℚ := if fl then v2 + L.gamma else v2
       ⟨u3, v3, u3 + v3, m, fl⟩) := by
  have hp1 : containsCoord (phase1 L).size p = true := hp
  have hp2 : containsCoord (phase2 (phase1 L)).size p = true := hp
  rw [diffusion_phases, phase3_lattice_of_mem _ hp2, phase2_lattice_of_mem _ hp1]
  rw [phase2cell, if_receptive_phase1, phase1_lattice_of_mem _ hp]
  cases hr : if_receptive L p <;>
    cases hfl : (L.lattice p).receptive <;>
      simp [phase3cell, hr, hfl]

theorem diffusion_phases_lattice_of_not_mem (L : CrystalLattice) {p : ℤ × ℤ}
    (hp : ¬ containsCoord L.size p = true) :
    (diffusion_phases L).lattice p = L.lattice p := by
  have hp1 : ¬ containsCoord (phase1 L).size p = true := hp
  have hp2 : ¬ containsCoord (phase2 (phase1 L)).size p = true := hp
  rw [diffusion_phases]
  simp only [phase3, phase2, phase1]
  simp [if_neg hp, if_neg hp1, if_neg hp2]

/-! Cardinality of the key set. -/

theorem natAbs_sum_Icc (n : ℕ) :
    ∑ r ∈ Finset.Icc (-(n : ℤ)) (n : ℤ), r.natAbs = n * (n + 1) := by
  induction n with
  | zero => simp
  | succ m ih =>
    have hins : Finset.Icc (-((m + 1 : ℕ) : ℤ)) ((m + 1 : ℕ) : ℤ)
        = insert (-((m + 1 : ℕ) : ℤ))
            (insert (((m + 1 : ℕ) : ℤ)) (Finset.Icc (-(m : ℤ)) (m : ℤ))) := by
      ext x
      simp only [Finset.mem_Icc, Finset.mem_insert]
      push_cast
      omega
    have hm1 : -((m + 1 : ℕ) : ℤ) ∉
        insert (((m + 1 : ℕ) : ℤ)) (Finset.Icc (-(m : ℤ)) (m : ℤ)) := by
      simp only [Finset.mem_insert, Finset.mem_Icc]
      push_cast
      omega
    have hm2 : (((m + 1 : ℕ) : ℤ)) ∉ Finset.Icc (-(m : ℤ)) (m : ℤ) := by
      simp only [Finset.mem_Icc]
      push_cast
      omega
    rw [hins, Finset.sum_insert hm1, Finset.sum_insert hm2, ih]
    have h1 : (-((m + 1 : ℕ) : ℤ)).natAbs = m + 1 := by omega
    have h2 : (((m + 1 : ℕ) : ℤ)).natAbs = m + 1 := by omega
    rw [h1, h2]
    ring

theorem lattice_coords_card (n : ℕ) :
    (lattice_coords n).card = 3 * n ^ 2 + 3 * n + 1 := by
  have hIcc : (Finset.Icc (-(n : ℤ)) (n : ℤ)).card = 2 * n + 1 := by
    rw [Int.card_Icc]
    omega
  have hrow : ∀ x ∈ Finset.Icc (-(n : ℤ)) (n : ℤ),
      ((Finset.Icc (-(n : ℤ)) (n : ℤ)).filter
          fun y => -(n : ℤ) ≤ x + y ∧ x + y ≤ (n : ℤ)).card + x.natAbs = 2 * n + 1 := by
    intro x hx
    rw [Finset.mem_Icc] at hx
    have hflt : ((Finset.Icc (-(n : ℤ)) (n : ℤ)).filter
          fun y => -(n : ℤ) ≤ x + y ∧ x + y ≤ (n : ℤ))
        = Finset.Icc (max (-(n : ℤ)) (-(n : ℤ) - x)) (min (n : ℤ) ((n : ℤ) - x)) := by
      ext y
      simp only [Finset.mem_filter, Finset.mem_Icc]
      omega
    rw [hflt, Int.card_Icc]
    omega
  have hcard : (lattice_coords n).card
      = ∑ x ∈ Finset.Icc (-(n : ℤ)) (n : ℤ),
          ((Finset.Icc (-(n : ℤ)) (n : ℤ)).filter
            fun y => -(n : ℤ) ≤ x + y ∧ x + y ≤ (n : ℤ)).card := by
    rw [lattice_coords, Finset.card_filter, Finset.sum_product]
    exact Finset.sum_congr rfl fun x _ => (Finset.card_filter _ _).symm
  have hsum : ∀ x ∈ Finset.Icc (-(n : ℤ)) (n : ℤ),
      ((Finset.Icc (-(n : ℤ)) (n : ℤ)).filter
          fun y => -(n : ℤ) ≤ x + y ∧ x + y ≤ (n : ℤ)).card + x.natAbs
        = (fun _ : ℤ => 2 * n + 1) x := hrow
  have htot : (lattice_coords n).card + n * (n + 1) = (2 * n + 1) * (2 * n + 1) := by
    calc (lattice_coords n).card + n * (n + 1)
        = (∑ x ∈ Finset.Icc (-(n : ℤ)) (n : ℤ),
            ((Finset.Icc (-(n : ℤ)) (n : ℤ)).filter
              fun y => -(n : ℤ) ≤ x + y ∧ x + y ≤ (n : ℤ)).card)
          + ∑ x ∈ Finset.Icc (-(n : ℤ)) (n : ℤ), x.natAbs := by
            rw [hcard, natAbs_sum_Icc]
      _ = ∑ x ∈ Finset.Icc (-(n : ℤ)) (n : ℤ),
            (((Finset.Icc (-(n : ℤ)) (n : ℤ)).filter
              fun y => -(n : ℤ) ≤ x + y ∧ x + y ≤ (n : ℤ)).card + x.natAbs) :=
            Finset.sum_add_distrib.symm
      _ = ∑ _x ∈ Finset.Icc (-(n : ℤ)) (n : ℤ), (2 * n + 1) := Finset.sum_congr rfl hsum
      _ = (2 * n + 1) * (2 * n + 1) := by
            rw [Finset.sum_const, hIcc, smul_eq_mul]
  have hexp : (2 * n + 1) * (2 * n + 1) = (3 * n ^ 2 + 3 * n + 1) + n * (n + 1) := by ring
  rw [hexp] at htot
  exact Nat.add_right_cancel htot

/-- C5.  `create_hexagonal_lattice` builds exactly `3n² + 3n + 1` cells; the
centre `(0, 0)` starts with `u = 0`, `v = 1`, `state = 1`, and every other
cell of the lattice starts with `u = state = beta`, `v = 0` (all with
`mean_u = 0` and an unset receptive flag). -/
theorem c5_lattice_construction (n : ℕ) (alpha beta gamma : ℚ) :
    (lattice_coords (create_hexagonal_lattice n alpha beta gamma).size).card
        = 3 * n ^ 2 + 3 * n + 1 ∧
    (create_hexagonal_lattice n alpha beta gamma).lattice (0, 0) = ⟨0, 1, 1, 0, false⟩ ∧
    ∀ p : ℤ × ℤ, containsCoord n p = true → p ≠ (0, 0) →
      (create_hexagonal_lattice n alpha beta gamma).lattice p = ⟨beta, 0, beta, 0, false⟩ := by
  refine ⟨lattice_coords_card n, by simp [create_hexagonal_lattice], ?_⟩
  intro p _ hne
  have hne' : p ≠ 0 := by simpa using hne
  simp [create_hexagonal_lattice, hne']

/-- Witness for C5 at `size = 1`, `beta = 0`: 7 cells, a non-centre cell. -/
theorem c5_lattice_construction_witness :
    (lattice_coords (create_hexagonal_lattice 1 1 0 1).size).card = 3 * 1 ^ 2 + 3 * 1 + 1 ∧
    (create_hexagonal_lattice 1 1 0 1).lattice (0, 1) = ⟨0, 0, 0, 0, false⟩ :=
  ⟨(c5_lattice_construction 1 1 0 1).1,
   (c5_lattice_construction 1 1 0 1).2.2 (0, 1) (by decide) (by decide)⟩

/-! The termination detector. -/

/-- `all_ends_frozen` can only raise, exit, or return `False`. -/
theorem all_ends_frozen_ne_returns_true (L : CrystalLattice) :
    all_ends_frozen L ≠ DetectorOutcome.returns true := by
  rw [all_ends_frozen]
  split_ifs <;> simp

/-- C1 (code bug).  The stall branch of `all_ends_frozen` compares the last
two entries of a freshly created local list `[0, frozen]`, so it fires
exactly when the current frozen count is `0` — it keeps no history across
calls.  Concretely, on the size-2 lattice with `beta = 0` the frozen count
is 1 on every call, so two successive calls both see an unchanged count and
still never trigger the stall branch. -/
theorem c1_stall_condition_is_count_zero :
    (frozen_count (create_hexagonal_lattice 2 1 0 1) = 1 ∧
      stall_check (create_hexagonal_lattice 2 1 0 1) = false ∧
      all_ends_frozen (create_hexagonal_lattice 2 1 0 1) = DetectorOutcome.returns false) ∧
    ∀ L : CrystalLattice, stall_check L = true ↔ frozen_count L = 0 := by
  refine ⟨by decide, fun L => ?_⟩
  simp [stall_check]

/-- C2 (code bug).  On a lattice whose six branch tips are all frozen
(`beta = 1`), `all_ends_frozen` prints, saves an image and raises
`SystemExit` — it does not return a boolean, contradicting its own
docstring (`Returns True if all 6 main branches are fully grown`). -/
theorem c2_detector_exits_process :
    all_ends_frozen (create_hexagonal_lattice 2 1 1 1) = DetectorOutcome.exitProcess ∧
    ∀ b : Bool, all_ends_frozen (create_hexagonal_lattice 2 1 1 1) ≠ DetectorOutcome.returns b := by
  refine ⟨by decide, fun b => ?_⟩
  cases b <;> decide

/-- C4.  Whenever `diffusion` completes a step (returning a lattice rather
than dying inside `all_ends_frozen`), every cell of the resulting lattice
satisfies `state = u + v` exactly: the last line of phase 3 assigns it. -/
theorem c4_state_eq_u_plus_v (L M : CrystalLattice) (h : diffusion L = some M) :
    ∀ p : ℤ × ℤ, containsCoord M.size p = true →
      (M.lattice p).state = (M.lattice p).u + (M.lattice p).v := by
  intro p hp
  rcases heq : all_ends_frozen L with _ | _ | b
  · rw [diffusion, heq] at h
    exact absurd h (by simp)
  · rw [diffusion, heq] at h
    exact absurd h (by simp)
  · cases b
    · rw [diffusion, heq, Option.some_inj] at h
      subst h
      have hp' : containsCoord L.size p = true := by
        simpa using hp
      rw [diffusion_phases_cell L hp']
    · exact absurd heq (all_ends_frozen_ne_returns_true L)

/-- Witness for C4: one completed step on the size-1, `beta = 0` lattice. -/
theorem c4_state_eq_u_plus_v_witness :
    ((diffusion_phases (create_hexagonal_lattice 1 1 0 1)).lattice (0, 0)).state
      = ((diffusion_phases (create_hexagonal_lattice 1 1 0 1)).lattice (0, 0)).u
        + ((diffusion_phases (create_hexagonal_lattice 1 1 0 1)).lattice (0, 0)).v := by
  have hret : all_ends_frozen (create_hexagonal_lattice 1 1 0 1)
      = DetectorOutcome.returns false := by decide
  have hsome : diffusion (create_hexagonal_lattice 1 1 0 1)
      = some (diffusion_phases (create_hexagonal_lattice 1 1 0 1)) := by
    rw [diffusion, hret]
  exact c4_state_eq_u_plus_v _ _ hsome (0, 0) (by decide)

/-- For sizes at least 2 the six branch-tip coordinates are distinct, so
the Python set literal keeps all six of them. -/
theorem branch_tips_card (n : ℕ) (h2 : 2 ≤ n) : (branch_tips n).card = 6 := by
  have hm : 1 ≤ (n : ℤ) - 1 := by omega
  simp only [branch_tips, branch_tip_list, List.toFinset_cons, List.toFinset_nil,
    insert_emptyc_eq]
  rw [Finset.card_insert_of_not_mem (by simp [Prod.ext_iff]; omega)]
  rw [Finset.card_insert_of_not_mem (by simp [Prod.ext_iff]; omega)]
  rw [Finset.card_insert_of_not_mem (by simp [Prod.ext_iff]; omega)]
  rw [Finset.card_insert_of_not_mem (by simp [Prod.ext_iff]; omega)]
  rw [Finset.card_insert_of_not_mem (by simp [Prod.ext_iff]; omega)]
  rw [Finset.card_singleton]

/-- C6 (counterexample at `size = 1`).  All six branch-tip coordinates of
the size-1 lattice — the list collapses to six copies of `(0, 0)` — have
`state ≥ 1`, yet `frozen_ends` is not 6, because the Python set literal
deduplicates and the loop can count at most one member. -/
theorem c6_branch_tip_counterexample :
    branch_tip_list (create_hexagonal_lattice 1 1 0 1).size
        = [(0, 0), (0, 0), (0, 0), (0, 0), (0, 0), (0, 0)] ∧
    1 ≤ ((create_hexagonal_lattice 1 1 0 1).lattice ((0 : ℤ), (0 : ℤ))).state ∧
    frozen_ends (create_hexagonal_lattice 1 1 0 1) ≠ 6 := by
  refine ⟨by decide, by decide, by decide⟩

/-- C6 (amended).  For every lattice of size at least 2 the branch-tip
condition `frozen_ends == 6` holds exactly when all six listed coordinates
have `state ≥ 1`; for size 1 the six coordinates coincide and the condition
can never hold, and for size 0 the lookups raise `KeyError`. -/
theorem c6_branch_tip_condition (L : CrystalLattice) (h2 : 2 ≤ L.size) :
    frozen_ends L = 6 ↔ ∀ p ∈ branch_tip_list L.size, 1 ≤ (L.lattice p).state := by
  rw [frozen_ends, show (6 : ℕ) = (branch_tips L.size).card from (branch_tips_card _ h2).symm,
    Finset.card_filter_eq_iff]
  constructor
  · intro h p hp
    exact h p (by simpa [branch_tips] using hp)
  · intro h p hp
    exact h p (by simpa [branch_tips] using hp)

/-- Witness for C6 (amended) on the size-2 lattice with `beta = 1`. -/
theorem c6_branch_tip_condition_witness :
    frozen_ends (create_hexagonal_lattice 2 1 1 1) = 6 ↔
      ∀ p ∈ branch_tip_list (create_hexagonal_lattice 2 1 1 1).size,
        1 ≤ ((create_hexagonal_lattice 2 1 1 1).lattice p).state :=
  c6_branch_tip_condition (create_hexagonal_lattice 2 1 1 1) (by decide)

/-! The neighbour mean. -/

/-- On a lattice of size at least 1, every dictionary cell has at least one
in-lattice neighbour. -/
theorem get_neighbours_ne_nil (n : ℕ) (p : ℤ × ℤ) (hn : 1 ≤ n)
    (hp : containsCoord n p = true) : get_neighbours n p ≠ [] := by
  obtain ⟨q, r⟩ := p
  have hc : -(n : ℤ) ≤ q ∧ q ≤ (n : ℤ) ∧ -(n : ℤ) ≤ r ∧ r ≤ (n : ℤ) ∧
      -(n : ℤ) ≤ q + r ∧ q + r ≤ (n : ℤ) := by
    simpa [containsCoord] using hp
  have key : ∃ x ∈ neighbourhood (q, r), containsCoord n x = true := by
    rcases lt_trichotomy q 0 with hq | hq | hq
    · exact ⟨(q + 1, r), by simp [neighbourhood], by simp [containsCoord]; omega⟩
    · rcases lt_trichotomy r 0 with hr | hr | hr
      · exact ⟨(q, r + 1), by simp [neighbourhood], by simp [containsCoord]; omega⟩
      · exact ⟨(q, r - 1), by simp [neighbourhood], by simp [containsCoord]; omega⟩
      · exact ⟨(q, r - 1), by simp [neighbourhood], by simp [containsCoord]; omega⟩
    · exact ⟨(q - 1, r), by simp [neighbourhood], by simp [containsCoord]; omega⟩
  obtain ⟨x, hmem, hx⟩ := key
  intro hnil
  have hmem' : x ∈ get_neighbours n (q, r) := by
    rw [get_neighbours]
    exact List.mem_filter.2 ⟨hmem, hx⟩
  rw [hnil] at hmem'
  exact absurd hmem' (List.not_mem_nil x)

/-- A nonempty neighbour list gives the well-defined arithmetic mean. -/
theorem umean_neighbours_of_ne_nil (L : CrystalLattice) (p : ℤ × ℤ)
    (h : get_neighbours L.size p ≠ []) :
    umean_neighbours L p
      = some ((((get_neighbours L.size p).map fun q => (L.lattice q).u).sum)
          / ((get_neighbours L.size p).length : ℚ)) := by
  rw [umean_neighbours, npMean, if_neg (by simpa using h)]
  simp

/-- C7 (counterexample).  On the size-0 lattice the single cell `(0, 0)`
has no neighbours, and `np.mean` of the empty list is NaN (`none`), not the
cell's own `u`. -/
theorem c7_empty_mean_counterexample :
    get_neighbours (create_hexagonal_lattice 0 1 0 1).size (0, 0) = [] ∧
    umean_neighbours (create_hexagonal_lattice 0 1 0 1) (0, 0) = none ∧
    umean_neighbours (create_hexagonal_lattice 0 1 0 1) (0, 0)
      ≠ some ((create_hexagonal_lattice 0 1 0 1).lattice (0, 0)).u := by
  refine ⟨by decide, by decide, by decide⟩

/-- C7 (amended).  An empty neighbour list makes the phase-1 average
undefined (NaN, modelled `none`) rather than `u`; this can only happen on a
size-0 lattice, because for every size ≥ 1 each cell of the lattice has a
nonempty neighbour list and the average is the well-defined arithmetic
mean. -/
theorem c7_neighbour_mean_totality :
    (∀ (L : CrystalLattice) (p : ℤ × ℤ), get_neighbours L.size p = [] →
        umean_neighbours L p = none) ∧
    (∀ L : CrystalLattice, 1 ≤ L.size → ∀ p : ℤ × ℤ, containsCoord L.size p = true →
        get_neighbours L.size p ≠ [] ∧
        umean_neighbours L p
          = some ((((get_neighbours L.size p).map fun q => (L.lattice q).u).sum)
              / ((get_neighbours L.size p).length : ℚ))) := by
  constructor
  · intro L p h
    rw [umean_neighbours, npMean, if_pos (by simp [h])]
  · intro L hL p hp
    have hne := get_neighbours_ne_nil L.size p hL hp
    exact ⟨hne, umean_neighbours_of_ne_nil L p hne⟩

/-- Witness for C7 (amended) on the size-1 lattice. -/
theorem c7_neighbour_mean_totality_witness :
    get_neighbours (create_hexagonal_lattice 1 1 0 1).size (0, 1) ≠ [] ∧
    umean_neighbours (create_hexagonal_lattice 1 1 0 1) (0, 1)
      = some ((((get_neighbours (create_hexagonal_lattice 1 1 0 1).size (0, 1)).map
            fun q => ((create_hexagonal_lattice 1 1 0 1).lattice q).u).sum)
          / ((get_neighbours (create_hexagonal_lattice 1 1 0 1).size (0, 1)).length : ℚ)) :=
  c7_neighbour_mean_totality.2 (create_hexagonal_lattice 1 1 0 1) (by decide) (0, 1) (by decide)

/-! The step rule per cell. -/

/-- A lattice whose `receptive` flags are sound: a set flag means the cell
currently classifies as receptive.  Freshly constructed lattices satisfy
this (all flags are unset), and the step preserves it for the documented
parameter ranges, because receptive cells stay receptive. -/
def flag_sound (L : CrystalLattice) : Prop :=
  ∀ p : ℤ × ℤ, containsCoord L.size p = true → (L.lattice p).receptive = true →
    if_receptive L p = true

/-- C3.  On a flag-sound lattice of size ≥ 1, one step classifies each cell
as receptive exactly when its own pre-step `state ≥ 1` or some filtered
neighbour's pre-step `state ≥ 1`; a receptive cell then goes through
`u ← 0`, `v ← state` and a non-receptive cell through `u ← state`, `v ← 0`;
finally `u ← u + alpha/2 * (meanU − u)` with `meanU` the pre-step neighbour
average of `u`, `gamma` is added to `v` exactly for the receptive cells,
and `state ← u + v`. -/
theorem c3_step_rule (L : CrystalLattice) (hn : 1 ≤ L.size) (hs : flag_sound L)
    (p : ℤ × ℤ) (hp : containsCoord L.size p = true) :
    (if_receptive L p = true ↔
      (1 ≤ (L.lattice p).state ∨ ∃ q ∈ get_neighbours L.size p, 1 ≤ (L.lattice q).state)) ∧
    (diffusion_phases L).lattice p =
      (let c := L.lattice p
       let m : ℚ := (((get_neighbours L.size p).map fun q => (L.lattice q).u).sum)
          / ((get_neighbours L.size p).length : ℚ)
       if if_receptive L p then
         (let u3 : ℚ := 0 + L.alpha / 2 * (m - 0)
          let v3 : ℚ := c.state + L.gamma
          ⟨u3, v3, u3 + v3, m, true⟩)
       else
         (let u3 : ℚ := c.state + L.alpha / 2 * (m - c.state)
          ⟨u3, 0, u3 + 0, m, false⟩)) := by
  constructor
  · simp [if_receptive, List.any_eq_true, decide_eq_true_eq]
  · have hne := get_neighbours_ne_nil L.size p hn hp
    have hm : (umean_neighbours L p).getD 0
        = (((get_neighbours L.size p).map fun q => (L.lattice q).u).sum)
          / ((get_neighbours L.size p).length : ℚ) := by
      rw [umean_neighbours_of_ne_nil L p hne]
      rfl
    rw [diffusion_phases_cell L hp]
    cases hr : if_receptive L p with
    | true => simp [hm, hr]
    | false =>
      cases hrec : (L.lattice p).receptive with
      | true => exact absurd (hs p hp hrec) (by simp [hr])
      | false => simp [hm, hr, hrec]

/-- Witness for C3: the classification of the size-1 lattice cell `(0, 1)`,
which touches the frozen seed. -/
theorem c3_step_rule_witness :
    if_receptive (create_hexagonal_lattice 1 1 0 1) (0, 1) = true ↔
      (1 ≤ ((create_hexagonal_lattice 1 1 0 1).lattice (0, 1)).state ∨
        ∃ q ∈ get_neighbours (create_hexagonal_lattice 1 1 0 1).size (0, 1),
          1 ≤ ((create_hexagonal_lattice 1 1 0 1).lattice q).state) := by
  have hflag : flag_sound (create_hexagonal_lattice 1 1 0 1) := by
    intro p _ hrec
    simp only [create_hexagonal_lattice] at hrec
    split at hrec <;> simp at hrec
  exact (c3_step_rule (create_hexagonal_lattice 1 1 0 1) (by decide) hflag (0, 1) (by decide)).1

/-! The receptive flag over time. -/

/-- One step never clears a set `receptive` flag. -/
theorem receptive_flag_monotone_step (L : CrystalLattice) (p : ℤ × ℤ)
    (hrec : (L.lattice p).receptive = true) :
    ((diffusion_phases L).lattice p).receptive = true := by
  by_cases hp : containsCoord L.size p = true
  · rw [diffusion_phases_cell L hp]
    simp [hrec]
  · rw [diffusion_phases_lattice_of_not_mem L hp]
    exact hrec

/-- C10.  The `receptive` flag starts `False` everywhere at construction, a
step sets it `True` on every cell it classifies receptive, no operation
ever resets it, and therefore once `True` it stays `True` in every later
snapshot. -/
theorem c10_receptive_flag_monotone :
    (∀ (n : ℕ) (alpha beta gamma : ℚ) (p : ℤ × ℤ),
        ((create_hexagonal_lattice n alpha beta gamma).lattice p).receptive = false) ∧
    (∀ (L : CrystalLattice) (p : ℤ × ℤ), containsCoord L.size p = true →
        if_receptive L p = true → ((diffusion_phases L).lattice p).receptive = true) ∧
    (∀ (L : CrystalLattice) (p : ℤ × ℤ), (L.lattice p).receptive = true →
        ((diffusion_phases L).lattice p).receptive = true) ∧
    (∀ (L : CrystalLattice) (p : ℤ × ℤ) (k k' : ℕ), k ≤ k' →
        ((stepN L k).lattice p).receptive = true →
        ((stepN L k').lattice p).receptive = true) := by
  refine ⟨?_, ?_, receptive_flag_monotone_step, ?_⟩
  · intro n alpha beta gamma p
    simp only [create_hexagonal_lattice]
    split <;> rfl
  · intro L p hp hr
    rw [diffusion_phases_cell L hp]
    simp [hr]
  · intro L p k k' hle hrec
    induction hle with
    | refl => exact hrec
    | step h ih => exact receptive_flag_monotone_step _ p ih

/-- Witness for C10: the seed's neighbour is flagged after one step. -/
theorem c10_receptive_flag_monotone_witness :
    ((diffusion_phases (create_hexagonal_lattice 1 1 0 1)).lattice (0, 1)).receptive = true :=
  c10_receptive_flag_monotone.2.1 (create_hexagonal_lattice 1 1 0 1) (0, 1) (by decide) (by decide)

/-! Mass growth on receptive cells. -/

/-- Filtered neighbours are dictionary keys. -/
theorem neighbours_contains {n : ℕ} {p q : ℤ × ℤ} (h : q ∈ get_neighbours n p) :
    containsCoord n q = true :=
  (List.mem_filter.1 h).2

theorem if_receptive_iff (L : CrystalLattice) (p : ℤ × ℤ) :
    if_receptive L p = true ↔
      (1 ≤ (L.lattice p).state ∨ ∃ q ∈ get_neighbours L.size p, 1 ≤ (L.lattice q).state) := by
  simp [if_receptive, List.any_eq_true, decide_eq_true_eq]

/-- All mass budgets of the dictionary cells are non-negative. -/
def nonneg_lattice (L : CrystalLattice) : Prop :=
  ∀ p : ℤ × ℤ, containsCoord L.size p = true →
    0 ≤ (L.lattice p).u ∧ 0 ≤ (L.lattice p).v ∧ 0 ≤ (L.lattice p).state

theorem umean_getD_nonneg (L : CrystalLattice) (p : ℤ × ℤ) (h : nonneg_lattice L) :
    0 ≤ (umean_neighbours L p).getD 0 := by
  rw [umean_neighbours, npMean]
  split
  · simp
  · simp only [Option.getD_some]
    apply div_nonneg
    · apply List.sum_nonneg
      intro x hx
      rw [List.mem_map] at hx
      obtain ⟨q, hq, rfl⟩ := hx
      exact (h q (neighbours_contains hq)).1
    · exact Nat.cast_nonneg _
  -- the `none` branch models NaN; its placeholder value 0 is non-negative

theorem nonneg_create (n : ℕ) (alpha beta gamma : ℚ) (hb : 0 ≤ beta) :
    nonneg_lattice (create_hexagonal_lattice n alpha beta gamma) := by
  intro p _
  simp only [create_hexagonal_lattice]
  split <;> refine ⟨?_, ?_, ?_⟩ <;> first | exact hb | norm_num

/-- The `u` value of a cell after one step, read off `diffusion_phases_cell`. -/
theorem diffusion_phases_u (L : CrystalLattice) {p : ℤ × ℤ}
    (hp : containsCoord L.size p = true) :
    ((diffusion_phases L).lattice p).u
      = (if if_receptive L p then (0 : ℚ) else (L.lattice p).state)
        + L.alpha / 2 * ((umean_neighbours L p).getD 0
            - (if if_receptive L p then (0 : ℚ) else (L.lattice p).state)) := by
  rw [diffusion_phases_cell L hp]

/-- The `v` value of a cell after one step. -/
theorem diffusion_phases_v (L : CrystalLattice) {p : ℤ × ℤ}
    (hp : containsCoord L.size p = true) :
    ((diffusion_phases L).lattice p).v
      = (if (if_receptive L p || (L.lattice p).receptive) then
            (if if_receptive L p then (L.lattice p).state else 0) + L.gamma
          else (if if_receptive L p then (L.lattice p).state else 0)) := by
  rw [diffusion_phases_cell L hp]

/-- The closing `state = u + v` of a cell after one step. -/
theorem diffusion_phases_state (L : CrystalLattice) {p : ℤ × ℤ}
    (hp : containsCoord L.size p = true) :
    ((diffusion_phases L).lattice p).state
      = ((diffusion_phases L).lattice p).u + ((diffusion_phases L).lattice p).v := by
  rw [diffusion_phases_cell L hp]

/-- A cell classified receptive does not lose `state` over the step. -/
theorem state_nondecreasing_of_receptive (L : CrystalLattice)
    (ha0 : 0 ≤ L.alpha) (hg : 0 ≤ L.gamma) (hnn : nonneg_lattice L)
    (p : ℤ × ℤ) (hp : containsCoord L.size p = true) (hr : if_receptive L p = true) :
    (L.lattice p).state ≤ ((diffusion_phases L).lattice p).state := by
  have hm := umean_getD_nonneg L p hnn
  have h2 : 0 ≤ L.alpha / 2 * ((umean_neighbours L p).getD 0) :=
    mul_nonneg (by linarith) hm
  rw [diffusion_phases_state L hp, diffusion_phases_u L hp, diffusion_phases_v L hp]
  simp [hr]
  linarith

/-- Frozen cells stay frozen across a step. -/
theorem frozen_persists (L : CrystalLattice)
    (ha0 : 0 ≤ L.alpha) (hg : 0 ≤ L.gamma) (hnn : nonneg_lattice L)
    (p : ℤ × ℤ) (hp : containsCoord L.size p = true) (h1 : 1 ≤ (L.lattice p).state) :
    1 ≤ ((diffusion_phases L).lattice p).state := by
  have hr : if_receptive L p = true := (if_receptive_iff L p).2 (Or.inl h1)
  calc (1 : ℚ) ≤ (L.lattice p).state := h1
    _ ≤ _ := state_nondecreasing_of_receptive L ha0 hg hnn p hp hr

/-- A cell classified receptive is classified receptive again after the
step. -/
theorem if_receptive_persists (L : CrystalLattice)
    (ha0 : 0 ≤ L.alpha) (hg : 0 ≤ L.gamma) (hnn : nonneg_lattice L)
    (p : ℤ × ℤ) (hp : containsCoord L.size p = true) (hr : if_receptive L p = true) :
    if_receptive (diffusion_phases L) p = true := by
  rw [if_receptive_iff] at hr
  rw [if_receptive_iff]
  rcases hr with h1 | ⟨q, hq, h1⟩
  · exact Or.inl (frozen_persists L ha0 hg hnn p hp h1)
  · exact Or.inr ⟨q, hq, frozen_persists L ha0 hg hnn q (neighbours_contains hq) h1⟩

/-- The step preserves non-negativity of all mass budgets when
`0 ≤ alpha ≤ 2` and `0 ≤ gamma`. -/
theorem nonneg_step (L : CrystalLattice) (ha0 : 0 ≤ L.alpha) (ha2 : L.alpha ≤ 2)
    (hg : 0 ≤ L.gamma) (hnn : nonneg_lattice L) : nonneg_lattice (diffusion_phases L) := by
  intro p hp
  have hp' : containsCoord L.size p = true := hp
  have hm := umean_getD_nonneg L p hnn
  obtain ⟨hu, hv, hst⟩ := hnn p hp'
  have hq1 : (0 : ℚ) ≤ 1 - L.alpha / 2 := by linarith
  have hq2 : (0 : ℚ) ≤ L.alpha / 2 := by linarith
  have hu' : 0 ≤ ((diffusion_phases L).lattice p).u := by
    rw [diffusion_phases_u L hp']
    split_ifs
    · nlinarith [mul_nonneg hq2 hm]
    · nlinarith [mul_nonneg hq1 hst, mul_nonneg hq2 hm]
  have hv' : 0 ≤ ((diffusion_phases L).lattice p).v := by
    rw [diffusion_phases_v L hp']
    split_ifs <;> linarith
  refine ⟨hu', hv', ?_⟩
  rw [diffusion_phases_state L hp']
  linarith

theorem nonneg_stepN (L : CrystalLattice) (ha0 : 0 ≤ L.alpha) (ha2 : L.alpha ≤ 2)
    (hg : 0 ≤ L.gamma) (hnn : nonneg_lattice L) (k : ℕ) : nonneg_lattice (stepN L k) := by
  induction k with
  | zero => exact hnn
  | succ k ih =>
    exact nonneg_step (stepN L k) (by simpa using ha0) (by simpa using ha2)
      (by simpa using hg) ih

theorem stepN_add (L : CrystalLattice) (a b : ℕ) :
    stepN L (a + b) = stepN (stepN L a) b := by
  induction b with
  | zero => rfl
  | succ b ih => simp only [stepN, Nat.add_eq, ih]

theorem if_receptive_stepN_persists (L : CrystalLattice)
    (ha0 : 0 ≤ L.alpha) (ha2 : L.alpha ≤ 2) (hg : 0 ≤ L.gamma) (hnn : nonneg_lattice L)
    (p : ℤ × ℤ) (hp : containsCoord L.size p = true) (hr : if_receptive L p = true)
    (k : ℕ) : if_receptive (stepN L k) p = true := by
  induction k with
  | zero => exact hr
  | succ k ih =>
    exact if_receptive_persists (stepN L k) (by simpa using ha0) (by simpa using hg)
      (nonneg_stepN L ha0 ha2 hg hnn k) p (by simpa using hp) ih

/-- C8.  From a constructed lattice with `0 ≤ alpha ≤ 2`, `0 ≤ beta` and
`0 ≤ gamma`, once a cell is classified receptive after `k` steps its
`state` never decreases across any later step: frozen (and receptive)
cells never lose mass.  (A size-0 lattice never completes a step — the
detector call inside `diffusion` raises — hence `1 ≤ n`.) -/
theorem c8_receptive_state_monotone (n : ℕ) (alpha beta gamma : ℚ) (_hn : 1 ≤ n)
    (ha0 : 0 ≤ alpha) (ha2 : alpha ≤ 2) (hb : 0 ≤ beta) (hg : 0 ≤ gamma)
    (k : ℕ) (p : ℤ × ℤ) (hp : containsCoord n p = true)
    (hr : if_receptive (stepN (create_hexagonal_lattice n alpha beta gamma) k) p = true) :
    ∀ j : ℕ, k ≤ j →
      ((stepN (create_hexagonal_lattice n alpha beta gamma) j).lattice p).state ≤
      ((stepN (create_hexagonal_lattice n alpha beta gamma) (j + 1)).lattice p).state := by
  intro j hj
  have hnn0 : nonneg_lattice (create_hexagonal_lattice n alpha beta gamma) :=
    nonneg_create n alpha beta gamma hb
  have hnnj : nonneg_lattice (stepN (create_hexagonal_lattice n alpha beta gamma) j) :=
    nonneg_stepN _ ha0 ha2 hg hnn0 j
  have hrj : if_receptive (stepN (create_hexagonal_lattice n alpha beta gamma) j) p = true := by
    have hsplit : j = k + (j - k) := by omega
    rw [hsplit, stepN_add]
    exact if_receptive_stepN_persists (stepN (create_hexagonal_lattice n alpha beta gamma) k)
      (by simpa using ha0) (by simpa using ha2) (by simpa using hg)
      (nonneg_stepN _ ha0 ha2 hg hnn0 k) p (by simpa using hp) hr (j - k)
  have h := state_nondecreasing_of_receptive
    (stepN (create_hexagonal_lattice n alpha beta gamma) j)
    (by simpa using ha0) (by simpa using hg) hnnj p (by simpa using hp) hrj
  exact h

/-- Witness for C8: the frozen seed of the size-1 lattice, receptive from
step 0 on. -/
theorem c8_receptive_state_monotone_witness :
    ((stepN (create_hexagonal_lattice 1 1 0 1) 0).lattice (0, 0)).state ≤
    ((stepN (create_hexagonal_lattice 1 1 0 1) (0 + 1)).lattice (0, 0)).state :=
  c8_receptive_state_monotone 1 1 0 1 (by decide) (by decide) (by decide) (by decide)
    (by decide) 0 (0, 0) (by decide) (by decide) 0 (by decide)

/-! Iteration order over the dictionary. -/

/-- The dictionary keys in construction (= insertion) order: the outer loop
runs `q` over `[-size, size]`, the inner loop `r`, and the stored key is
`(r, q)`. -/
def coords_list (n : ℕ) : List (ℤ × ℤ) :=
  ((List.range (2 * n + 1)) ×ˢ (List.range (2 * n + 1))).filterMap fun qr =>
    (let q : ℤ := (qr.1 : ℤ) - (n : ℤ)
     let r : ℤ := (qr.2 : ℤ) - (n : ℤ)
     if -(n : ℤ) ≤ q + r ∧ q + r ≤ (n : ℤ) then some (r, q) else none)

theorem mem_coords_list {n : ℕ} {p : ℤ × ℤ} :
    p ∈ coords_list n ↔ containsCoord n p = true := by
  constructor
  · intro h
    rw [coords_list, List.mem_filterMap] at h
    obtain ⟨a, ha, hf⟩ := h
    obtain ⟨qi, ri⟩ := a
    rw [List.mem_product, List.mem_range, List.mem_range] at ha
    obtain ⟨hqi, hri⟩ := ha
    dsimp only at hf
    split at hf
    · next hc =>
        injection hf with hf'
        rw [← hf']
        simp only [containsCoord, decide_eq_true_eq]
        refine ⟨by omega, by omega, by omega, by omega, by omega, by omega⟩
    · exact absurd hf (by simp)
  · intro h
    simp only [containsCoord, decide_eq_true_eq] at h
    rw [coords_list, List.mem_filterMap]
    refine ⟨((p.2 + (n : ℤ)).toNat, (p.1 + (n : ℤ)).toNat), ?_, ?_⟩
    · rw [List.mem_product, List.mem_range, List.mem_range]
      constructor <;> omega
    · have h1 : (((p.2 + (n : ℤ)).toNat : ℤ)) = p.2 + (n : ℤ) := by omega
      have h2 : (((p.1 + (n : ℤ)).toNat : ℤ)) = p.1 + (n : ℤ) := by omega
      rw [h1, h2, if_pos (by omega)]
      have h3 : (p.1 + (n : ℤ) - (n : ℤ), p.2 + (n : ℤ) - (n : ℤ)) = p := by
        obtain ⟨x, y⟩ := p
        simp only [Prod.mk.injEq]
        omega
      rw [h3]

theorem coords_list_nodup (n : ℕ) : (coords_list n).Nodup := by
  apply List.Nodup.filterMap
  · intro a a' b hb hb'
    obtain ⟨qi, ri⟩ := a
    obtain ⟨qi', ri'⟩ := a'
    simp only [Option.mem_def] at hb hb'
    split at hb
    · split at hb'
      · injection hb with e
        injection hb' with e'
        rw [← e'] at e
        rw [Prod.mk.injEq] at e
        obtain ⟨e1, e2⟩ := e
        rw [Prod.mk.injEq]
        exact ⟨by omega, by omega⟩
      · exact absurd hb' (by simp)
    · exact absurd hb (by simp)
  · exact List.Nodup.product (List.nodup_range _) (List.nodup_range _)

/-- One iteration of the phase-1 loop body: write the neighbour mean of the
current dictionary contents into cell `p`. -/
def upd1 (M : CrystalLattice) (p : ℤ × ℤ) : CrystalLattice :=
  { M with lattice := fun q =>
      if q = p then { M.lattice p with mean_u := (umean_neighbours M p).getD 0 }
      else M.lattice q }

/-- One iteration of the phase-2 loop body. -/
def upd2 (M : CrystalLattice) (p : ℤ × ℤ) : CrystalLattice :=
  { M with lattice := fun q => if q = p then phase2cell M p else M.lattice q }

/-- One iteration of the phase-3 loop body. -/
def upd3 (M : CrystalLattice) (p : ℤ × ℤ) : CrystalLattice :=
  { M with lattice := fun q =>
      if q = p then phase3cell M.alpha M.gamma (M.lattice p) else M.lattice q }

/-- The phase-1 loop, iterating over the keys in the order `o`. -/
def phase1_fold (o : List (ℤ × ℤ)) (L : CrystalLattice) : CrystalLattice := o.foldl upd1 L

/-- The phase-2 loop. -/
def phase2_fold (o : List (ℤ × ℤ)) (L : CrystalLattice) : CrystalLattice := o.foldl upd2 L

/-- The phase-3 loop. -/
def phase3_fold (o : List (ℤ × ℤ)) (L : CrystalLattice) : CrystalLattice := o.foldl upd3 L

/-- `diffusion`'s three loops with explicit iteration orders. -/
def diffusion_fold (o1 o2 o3 : List (ℤ × ℤ)) (L : CrystalLattice) : CrystalLattice :=
  phase3_fold o3 (phase2_fold o2 (phase1_fold o1 L))

/-- Iterated stepping with an arbitrary triple of iteration orders for
every step. -/
def stepN_fold (os : ℕ → List (ℤ × ℤ) × List (ℤ × ℤ) × List (ℤ × ℤ))
    (L : CrystalLattice) : ℕ → CrystalLattice
  | 0 => L
  | k + 1 => diffusion_fold (os k).1 (os k).2.1 (os k).2.2 (stepN_fold os L k)

theorem upd1_u (M : CrystalLattice) (p q : ℤ × ℤ) :
    ((upd1 M p).lattice q).u = (M.lattice q).u := by
  simp only [upd1]
  split
  · next h => subst h; rfl
  · rfl

theorem upd2_state (M : CrystalLattice) (p q : ℤ × ℤ) :
    ((upd2 M p).lattice q).state = (M.lattice q).state := by
  simp only [upd2]
  split
  · next h =>
      subst h
      rw [phase2cell]
      split <;> rfl
  · rfl

theorem phase2cell_congr (M L : CrystalLattice) (hs : M.size = L.size)
    (hst : ∀ z, (M.lattice z).state = (L.lattice z).state) (q : ℤ × ℤ)
    (hq : M.lattice q = L.lattice q) : phase2cell M q = phase2cell L q := by
  rw [phase2cell, phase2cell, if_receptive_congr M L hs hst q, hq]

theorem phase1_fold_params (o : List (ℤ × ℤ)) (L : CrystalLattice) :
    (phase1_fold o L).size = L.size ∧ (phase1_fold o L).alpha = L.alpha ∧
    (phase1_fold o L).beta = L.beta ∧ (phase1_fold o L).gamma = L.gamma := by
  induction o generalizing L with
  | nil => exact ⟨rfl, rfl, rfl, rfl⟩
  | cons p t ih => exact ih (upd1 L p)

theorem phase2_fold_params (o : List (ℤ × ℤ)) (L : CrystalLattice) :
    (phase2_fold o L).size = L.size ∧ (phase2_fold o L).alpha = L.alpha ∧
    (phase2_fold o L).beta = L.beta ∧ (phase2_fold o L).gamma = L.gamma := by
  induction o generalizing L with
  | nil => exact ⟨rfl, rfl, rfl, rfl⟩
  | cons p t ih => exact ih (upd2 L p)

theorem phase3_fold_params (o : List (ℤ × ℤ)) (L : CrystalLattice) :
    (phase3_fold o L).size = L.size ∧ (phase3_fold o L).alpha = L.alpha ∧
    (phase3_fold o L).beta = L.beta ∧ (phase3_fold o L).gamma = L.gamma := by
  induction o generalizing L with
  | nil => exact ⟨rfl, rfl, rfl, rfl⟩
  | cons p t ih => exact ih (upd3 L p)

/-- Running the phase-1 loop over distinct keys equals the simultaneous
phase-1 update on those keys: each loop iteration writes only `mean_u` of
the visited cell while `umean_neighbours` reads only `u` values, so every
visit computes its mean from the unmodified pre-phase `u` values. -/
theorem phase1_fold_lattice (o : List (ℤ × ℤ)) (L : CrystalLattice) (ho : o.Nodup)
    (q : ℤ × ℤ) :
    (phase1_fold o L).lattice q
      = if q ∈ o then { L.lattice q with mean_u := (umean_neighbours L q).getD 0 }
        else L.lattice q := by
  induction o generalizing L with
  | nil => simp [phase1_fold]
  | cons p t ih =>
    have hpt : p ∉ t := (List.nodup_cons.1 ho).1
    have ht : t.Nodup := (List.nodup_cons.1 ho).2
    have hstep : phase1_fold (p :: t) L = phase1_fold t (upd1 L p) := rfl
    rw [hstep, ih (upd1 L p) ht]
    have humean : umean_neighbours (upd1 L p) q = umean_neighbours L q :=
      umean_congr (upd1 L p) L rfl (fun w => upd1_u L p w) q
    by_cases hq : q ∈ t
    · have hqp : q ≠ p := fun h => hpt (h ▸ hq)
      rw [if_pos hq, if_pos (by simp [hq])]
      rw [humean]
      have hbase : (upd1 L p).lattice q = L.lattice q := by simp [upd1, hqp]
      rw [hbase]
    · by_cases hqp : q = p
      · subst hqp
        rw [if_neg hq, if_pos (by simp)]
        simp [upd1]
      · rw [if_neg hq, if_neg (by simp [hq, hqp])]
        simp [upd1, hqp]

/-- Running the phase-2 loop over distinct keys equals the simultaneous
phase-2 update: each iteration writes only `u`, `v`, `receptive` of the
visited cell while the classification reads only `state` values. -/
theorem phase2_fold_lattice (o : List (ℤ × ℤ)) (L : CrystalLattice) (ho : o.Nodup)
    (q : ℤ × ℤ) :
    (phase2_fold o L).lattice q
      = if q ∈ o then phase2cell L q else L.lattice q := by
  induction o generalizing L with
  | nil => simp [phase2_fold]
  | cons p t ih =>
    have hpt : p ∉ t := (List.nodup_cons.1 ho).1
    have ht : t.Nodup := (List.nodup_cons.1 ho).2
    have hstep : phase2_fold (p :: t) L = phase2_fold t (upd2 L p) := rfl
    rw [hstep, ih (upd2 L p) ht]
    by_cases hq : q ∈ t
    · have hqp : q ≠ p := fun h => hpt (h ▸ hq)
      rw [if_pos hq, if_pos (by simp [hq])]
      exact phase2cell_congr (upd2 L p) L rfl (fun z => upd2_state L p z) q
        (by simp [upd2, hqp])
    · by_cases hqp : q = p
      · subst hqp
        rw [if_neg hq, if_pos (by simp)]
        simp [upd2]
      · rw [if_neg hq, if_neg (by simp [hq, hqp])]
        simp [upd2, hqp]

/-- Running the phase-3 loop over distinct keys equals the simultaneous
phase-3 update: each iteration reads and writes only the visited cell. -/
theorem phase3_fold_lattice (o : List (ℤ × ℤ)) (L : CrystalLattice) (ho : o.Nodup)
    (q : ℤ × ℤ) :
    (phase3_fold o L).lattice q
      = if q ∈ o then phase3cell L.alpha L.gamma (L.lattice q) else L.lattice q := by
  induction o generalizing L with
  | nil => simp [phase3_fold]
  | cons p t ih =>
    have hpt : p ∉ t := (List.nodup_cons.1 ho).1
    have ht : t.Nodup := (List.nodup_cons.1 ho).2
    have hstep : phase3_fold (p :: t) L = phase3_fold t (upd3 L p) := rfl
    rw [hstep, ih (upd3 L p) ht]
    have ha : (upd3 L p).alpha = L.alpha := rfl
    have hg : (upd3 L p).gamma = L.gamma := rfl
    by_cases hq : q ∈ t
    · have hqp : q ≠ p := fun h => hpt (h ▸ hq)
      rw [if_pos hq, if_pos (by simp [hq]), ha, hg]
      have hbase : (upd3 L p).lattice q = L.lattice q := by simp [upd3, hqp]
      rw [hbase]
    · by_cases hqp : q = p
      · subst hqp
        rw [if_neg hq, if_pos (by simp)]
        simp [upd3]
      · rw [if_neg hq, if_neg (by simp [hq, hqp])]
        simp [upd3, hqp]

theorem phase1_fold_eq (o : List (ℤ × ℤ)) (L : CrystalLattice) (ho : o.Nodup)
    (hmem : ∀ q, q ∈ o ↔ containsCoord L.size q = true) :
    phase1_fold o L = phase1 L := by
  obtain ⟨hs, ha, hb, hg⟩ := phase1_fold_params o L
  refine CrystalLattice.ext hs ha hb hg ?_
  funext q
  rw [phase1_fold_lattice o L ho q]
  simp only [phase1]
  by_cases hq : containsCoord L.size q = true
  · rw [if_pos ((hmem q).2 hq), if_pos hq]
  · rw [if_neg (fun h => hq ((hmem q).1 h)), if_neg hq]

theorem phase2_fold_eq (o : List (ℤ × ℤ)) (L : CrystalLattice) (ho : o.Nodup)
    (hmem : ∀ q, q ∈ o ↔ containsCoord L.size q = true) :
    phase2_fold o L = phase2 L := by
  obtain ⟨hs, ha, hb, hg⟩ := phase2_fold_params o L
  refine CrystalLattice.ext hs ha hb hg ?_
  funext q
  rw [phase2_fold_lattice o L ho q]
  simp only [phase2]
  by_cases hq : containsCoord L.size q = true
  · rw [if_pos ((hmem q).2 hq), if_pos hq]
  · rw [if_neg (fun h => hq ((hmem q).1 h)), if_neg hq]

theorem phase3_fold_eq (o : List (ℤ × ℤ)) (L : CrystalLattice) (ho : o.Nodup)
    (hmem : ∀ q, q ∈ o ↔ containsCoord L.size q = true) :
    phase3_fold o L = phase3 L := by
  obtain ⟨hs, ha, hb, hg⟩ := phase3_fold_params o L
  refine CrystalLattice.ext hs ha hb hg ?_
  funext q
  rw [phase3_fold_lattice o L ho q]
  simp only [phase3]
  by_cases hq : containsCoord L.size q = true
  · rw [if_pos ((hmem q).2 hq), if_pos hq]
  · rw [if_neg (fun h => hq ((hmem q).1 h)), if_neg hq]

/-- The three loops of `diffusion`, run in arbitrary orders that each
enumerate the dictionary keys, produce exactly the simultaneous
phase-barrier result. -/
theorem diffusion_fold_eq (o1 o2 o3 : List (ℤ × ℤ)) (L : CrystalLattice)
    (h1 : o1.Perm (coords_list L.size)) (h2 : o2.Perm (coords_list L.size))
    (h3 : o3.Perm (coords_list L.size)) :
    diffusion_fold o1 o2 o3 L = diffusion_phases L := by
  have hnod : ∀ o : List (ℤ × ℤ), o.Perm (coords_list L.size) → o.Nodup := fun o h =>
    h.nodup_iff.2 (coords_list_nodup L.size)
  have hmem : ∀ o : List (ℤ × ℤ), o.Perm (coords_list L.size) →
      ∀ q, q ∈ o ↔ containsCoord L.size q = true := fun o h q =>
    h.mem_iff.trans mem_coords_list
  rw [diffusion_fold, phase1_fold_eq o1 L (hnod o1 h1) (hmem o1 h1)]
  rw [phase2_fold_eq o2 (phase1 L) (hnod o2 h2) (hmem o2 h2)]
  rw [phase3_fold_eq o3 (phase2 (phase1 L)) (hnod o3 h3) (hmem o3 h3)]
  rfl

theorem stepN_fold_eq (os : ℕ → List (ℤ × ℤ) × List (ℤ × ℤ) × List (ℤ × ℤ))
    (L : CrystalLattice)
    (h : ∀ k, ((os k).1).Perm (coords_list L.size) ∧
      ((os k).2.1).Perm (coords_list L.size) ∧ ((os k).2.2).Perm (coords_list L.size))
    (k : ℕ) : stepN_fold os L k = stepN L k := by
  induction k with
  | zero => rfl
  | succ k ih =>
    show diffusion_fold (os k).1 (os k).2.1 (os k).2.2 (stepN_fold os L k)
        = diffusion_phases (stepN L k)
    rw [ih]
    have hsz : coords_list (stepN L k).size = coords_list L.size := by rw [stepN_size]
    exact diffusion_fold_eq _ _ _ (stepN L k) (hsz ▸ (h k).1) (hsz ▸ (h k).2.1)
      (hsz ▸ (h k).2.2)

/-- C9.  Stepping is deterministic and independent of the dictionary
iteration order: from a lattice constructed with given
`(size, alpha, beta, gamma)`, running `k` steps with any two (possibly
different, per step and per phase) enumeration orders of the keys yields
identical lattices — in particular identical `u`, `v`, `state`,
`receptive` at every cell. -/
theorem c9_deterministic_order_independent (n : ℕ) (alpha beta gamma : ℚ)
    (os os' : ℕ → List (ℤ × ℤ) × List (ℤ × ℤ) × List (ℤ × ℤ))
    (h : ∀ k, ((os k).1).Perm (coords_list n) ∧
      ((os k).2.1).Perm (coords_list n) ∧ ((os k).2.2).Perm (coords_list n))
    (h' : ∀ k, ((os' k).1).Perm (coords_list n) ∧
      ((os' k).2.1).Perm (coords_list n) ∧ ((os' k).2.2).Perm (coords_list n))
    (k : ℕ) :
    stepN_fold os (create_hexagonal_lattice n alpha beta gamma) k
      = stepN_fold os' (create_hexagonal_lattice n alpha beta gamma) k := by
  rw [stepN_fold_eq os (create_hexagonal_lattice n alpha beta gamma) h k,
    stepN_fold_eq os' (create_hexagonal_lattice n alpha beta gamma) h' k]

/-- Witness for C9: one step of the size-1 lattice, iterating phase 1 in
reversed key order on one side. -/
theorem c9_deterministic_order_independent_witness :
    stepN_fold (fun _ => ((coords_list 1).reverse, coords_list 1, coords_list 1))
        (create_hexagonal_lattice 1 1 0 1) 1
      = stepN_fold (fun _ => (coords_list 1, coords_list 1, coords_list 1))
        (create_hexagonal_lattice 1 1 0 1) 1 :=
  c9_deterministic_order_independent 1 1 0 1 _ _
    (fun _ => ⟨(coords_list 1).reverse_perm, List.Perm.refl _, List.Perm.refl _⟩)
    (fun _ => ⟨List.Perm.refl _, List.Perm.refl _, List.Perm.refl _⟩) 1

end SnowCrystal
